import Mathlib

/-!
Shallow embedding of `torch/_inductor/runtime/triton_bundler.py`.

Modelling conventions:
* Filesystem paths are lists of path components (`List String`); `os.path.join`
  becomes list append.
* `bytes` payloads are `List Nat`.
* The class-level registry `TritonBundler._entries : Optional[Dict[TritonBundleEntry, None]]`
  is an explicit `Option (List TritonBundleEntry)` threaded through the operations;
  the dict with `None` values is its insertion-ordered key list, and inserting an
  already-present key is a no-op (Python dict semantics).
* A Python `assert` failure (fatal programmer-misuse error) is modelled by the
  operation returning `none` in an `Option`-valued result.
* The ambient configuration consulted by `is_enabled` is an explicit record.
* The filesystem seen by `collect` is a record of the four primitives the code
  uses (`os.path.exists`, `os.listdir`, `os.path.isfile`, reading a file, where
  reading returns `none` on an I/O error).
* `write_bundle_to_file_system` returns the ordered list of filesystem effects
  (`mkdir -p` on a directory, or writing a payload to a file path) that the
  Python code performs.
-/

/-- The configuration consulted by `TritonBundler.is_enabled`:
`config.bundle_triton_into_fx_graph_cache`, `config.is_fbcode()` and the
`justknobs_check` feature gate. -/
structure TritonBundlerConfig where
  bundle_triton_into_fx_graph_cache : Option Bool
  is_fbcode : Bool
  justknobs : Bool
  deriving DecidableEq

/-- `TritonBundleEntry` dataclass: frozen, identity by value. The `directory`
string is modelled as a component list. -/
structure TritonBundleEntry where
  kernel_hash : String
  device : Int
  directory : List String
  deriving DecidableEq

/-- `TritonKernelArtifact` dataclass: a filename together with its raw payload. -/
structure TritonKernelArtifact where
  filename : String
  payload : List Nat
  deriving DecidableEq

/-- `TritonKernelArtifacts` dataclass: artifacts of one kernel on one device. -/
structure TritonKernelArtifacts where
  kernel_hash : String
  device : Int
  artifacts : List TritonKernelArtifact
  deriving DecidableEq

/-- The registry state `TritonBundler._entries`: `none` is Python `None`
(uninitialized), `some l` is an insertion-ordered dict-key list. -/
abbrev BundlerEntries := Option (List TritonBundleEntry)

/-- The filesystem interface used by `TritonBundler.collect`:
`os.path.exists`, `os.listdir`, `os.path.isfile`, and reading a file's bytes
(`none` models an I/O error raised while opening/reading). -/
structure FS where
  pathExists : List String → Bool
  listdir : List String → List String
  isfile : List String → Bool
  readFile : List String → Option (List Nat)

namespace TritonBundler

/-- `TritonBundler.is_enabled`: explicit config value wins; otherwise disabled
outside fbcode; otherwise the feature-gate lookup decides. -/
def is_enabled (cfg : TritonBundlerConfig) : Bool :=
  match cfg.bundle_triton_into_fx_graph_cache with
  | some b => b
  | none => if ¬ cfg.is_fbcode then false else cfg.justknobs

/-- `TritonBundler.begin_compile`: no-op when disabled; otherwise asserts the
registry is `None` (result `none` models the fatal assertion failure) and
installs an empty entry dict. -/
def begin_compile (cfg : TritonBundlerConfig) (st : BundlerEntries) :
    Option BundlerEntries :=
  if ¬ is_enabled cfg then some st
  else
    match st with
    | some _ => none
    | none => some (some [])

/-- `TritonBundler.put`: no-op when the registry is `None`; otherwise asserts
`TRITON_CACHE_DIR` is set (result `none` models the fatal assertion failure)
and inserts `TritonBundleEntry(kernel_hash, device, triton_cache_dir)` into the
dict (a no-op if the key is already present). -/
def put (st : BundlerEntries) (triton_cache_dir : Option (List String))
    (kernel_hash : String) (device : Int) : Option BundlerEntries :=
  match st with
  | none => some none
  | some entries =>
    match triton_cache_dir with
    | none => none
    | some dir =>
      let e : TritonBundleEntry := ⟨kernel_hash, device, dir⟩
      some (some (if e ∈ entries then entries else entries ++ [e]))

/-- Body of the `try` block in `TritonBundler.collect` for one child of
`path`: the child is kept when the `os.path.isfile` assertion holds and the
read succeeds; `none` is a per-file failure, which the `except` clause turns
into skipping that one file. -/
def readArtifact (fs : FS) (path : List String) (filename : String) :
    Option TritonKernelArtifact :=
  let filepath := path ++ [filename]
  if fs.isfile filepath then
    (fs.readFile filepath).map fun payload => ⟨filename, payload⟩
  else none

/-- Inner loop of `TritonBundler.collect` over the children of
`path = entry.directory/entry.kernel_hash`: every child whose read fails is
skipped, the rest are kept in listing order. -/
def collectArtifacts (fs : FS) (path : List String) : List TritonKernelArtifact :=
  (fs.listdir path).filterMap (readArtifact fs path)

/-- Per-entry body of `TritonBundler.collect`: skip the entry when
`directory/kernel_hash` does not exist; otherwise gather its artifacts and emit
a `TritonKernelArtifacts` group only when at least one artifact was collected. -/
def collectGroup (fs : FS) (entry : TritonBundleEntry) :
    Option TritonKernelArtifacts :=
  let path := entry.directory ++ [entry.kernel_hash]
  if fs.pathExists path then
    let artifacts := collectArtifacts fs path
    if artifacts.isEmpty then none
    else some ⟨entry.kernel_hash, entry.device, artifacts⟩
  else none

/-- `TritonBundler.collect`: when disabled, clear the registry and return `[]`;
when the registry is `None`, return `[]`; otherwise fold every entry through
`collectGroup`, clear the registry, and return the groups in entry order. -/
def collect (cfg : TritonBundlerConfig) (st : BundlerEntries) (fs : FS) :
    BundlerEntries × List TritonKernelArtifacts :=
  if ¬ is_enabled cfg then (none, [])
  else
    match st with
    | some entries => (none, entries.filterMap (collectGroup fs))
    | none => (none, [])

end TritonBundler

/-- One filesystem effect performed by `write_bundle_to_file_system`:
`Path(directory).mkdir(parents=True, exist_ok=True)` or writing a payload to a
file path (`open(filepath, "wb")`). -/
inductive FSEffect where
  | mkdirs (directory : List String)
  | write (filepath : List String) (payload : List Nat)
  deriving DecidableEq

/-- The path an effect touches. -/
def FSEffect.path : FSEffect → List String
  | .mkdirs d => d
  | .write p _ => p

namespace TritonBundler

/-- `TritonBundler.write_bundle_to_file_system`: nothing when disabled;
otherwise `basedir` is `TRITON_CACHE_DIR` when set (`custom_dir`), else
`cache_dir()/triton`; each group's directory is `basedir/kernel_hash`, with a
trailing `str(device)` segment only in the non-custom case; the directory is
created and every artifact payload is written under it. Returns the ordered
effect list. -/
def write_bundle_to_file_system (cfg : TritonBundlerConfig)
    (triton_cache_dir : Option (List String)) (cache_root : List String)
    (bundle : List TritonKernelArtifacts) : List FSEffect :=
  if ¬ is_enabled cfg then []
  else
    let p : Bool × List String :=
      match triton_cache_dir with
      | some d => (true, d)
      | none => (false, cache_root ++ ["triton"])
    let custom_dir := p.1
    let basedir := p.2
    bundle.flatMap fun artifacts =>
      let directory := basedir ++ [artifacts.kernel_hash]
      let directory :=
        if custom_dir then directory else directory ++ [toString artifacts.device]
      FSEffect.mkdirs directory ::
        artifacts.artifacts.map fun artifact =>
          FSEffect.write (directory ++ [artifact.filename]) artifact.payload

end TritonBundler

/-- `leadsTo p q` holds when the component list `p` is an initial segment of
`q`, i.e. the path `p` is `q` itself or an ancestor directory of `q`. -/
def leadsTo : List String → List String → Bool
  | [], _ => true
  | _ :: _, [] => false
  | a :: as, b :: bs => decide (a = b) && leadsTo as bs

/-- The name of the direct child of directory `p` along the path `q`
(`none` when `q` is not strictly below `p`). -/
def childName (p q : List String) : Option String :=
  if leadsTo p q then (q.drop p.length).head? else none

/-- One step of replaying an effect on the contents seen at path `p`: a write
to `p` replaces the contents, everything else leaves them alone. -/
def writeStep (p : List String) (acc : Option (List Nat)) (eff : FSEffect) :
    Option (List Nat) :=
  match eff with
  | .write q payload => if q = p then some payload else acc
  | .mkdirs _ => acc

/-- Contents at path `p` after running an effect list on an empty filesystem:
the payload of the last `write` to `p`, if any (`open(..., "wb")` truncates, so
the last write wins). -/
def lastWriteAt (effects : List FSEffect) (p : List String) : Option (List Nat) :=
  effects.foldl (writeStep p) none

/-- The filesystem state produced by running an effect list on an initially
empty filesystem: a path exists when it is a created directory, a written file,
or an ancestor of one (`mkdir(parents=True)`); directory listings are the
distinct direct-child names; the regular files are exactly the written paths. -/
def fsOfEffects (effects : List FSEffect) : FS where
  pathExists p := effects.any fun eff => leadsTo p eff.path
  listdir p := (effects.filterMap fun eff => childName p eff.path).dedup
  isfile p := effects.any fun eff =>
    match eff with
    | .write q _ => decide (q = p)
    | .mkdirs _ => false
  readFile := lastWriteAt effects

/-- `fs` with the file at `p` made unreadable: reading it raises an I/O error
(`none`); every other filesystem primitive is unchanged. -/
def FS.breakFile (fs : FS) (p : List String) : FS :=
  { fs with readFile := fun q => if q = p then none else fs.readFile q }

/-- One call into the bundler, for reasoning about whole runs. -/
inductive BundlerOp where
  | begin_compile
  | put (triton_cache_dir : Option (List String)) (kernel_hash : String) (device : Int)
  | collect (fs : FS)

/-- Run one bundler call against the registry state; `none` models a fatal
assertion failure. -/
def runOp (cfg : TritonBundlerConfig) (st : BundlerEntries) :
    BundlerOp → Option BundlerEntries
  | .begin_compile => TritonBundler.begin_compile cfg st
  | .put tcd h d => TritonBundler.put st tcd h d
  | .collect fs => some (TritonBundler.collect cfg st fs).1

/-- Run a sequence of bundler calls under a fixed configuration, stopping at
the first fatal assertion failure. -/
def runOps (cfg : TritonBundlerConfig) (st : BundlerEntries) :
    List BundlerOp → Option BundlerEntries
  | [] => some st
  | op :: ops => (runOp cfg st op).bind fun st' => runOps cfg st' ops

/-- A configuration whose explicit setting turns bundling on. -/
def cfgOn : TritonBundlerConfig := ⟨some true, false, false⟩

/-- A configuration whose explicit setting turns bundling off. -/
def cfgOff : TritonBundlerConfig := ⟨some false, true, true⟩

/-- Concrete two-file filesystem used to exercise `collect`: the directory
`d/h` holds readable regular files `a` (bytes `[1]`) and `b` (bytes `[2]`). -/
def fsTwoFiles : FS where
  pathExists p := decide (p = ["d", "h"] ∨ p = ["d", "h", "a"] ∨ p = ["d", "h", "b"])
  listdir p := if p = ["d", "h"] then ["a", "b"] else []
  isfile p := decide (p = ["d", "h", "a"] ∨ p = ["d", "h", "b"])
  readFile p :=
    if p = ["d", "h", "a"] then some [1]
    else if p = ["d", "h", "b"] then some [2]
    else none

/-- A bundle of one group with a single artifact, used as a concrete input. -/
def bundleOne : List TritonKernelArtifacts := [⟨"h", 0, [⟨"f", [1]⟩]⟩]

/-- A bundle whose single group carries two artifacts with the same filename
but different payloads. -/
def bundleDup : List TritonKernelArtifacts := [⟨"h", 0, [⟨"f", [0]⟩, ⟨"f", [1]⟩]⟩]

/-- The effect sequence `write_bundle_to_file_system` emits for one group when
a custom override directory `d` is configured: create `d/kernel_hash`, then
write each artifact payload to `d/kernel_hash/filename`. -/
def overrideGroupEffects (d : List String) (g : TritonKernelArtifacts) :
    List FSEffect :=
  FSEffect.mkdirs (d ++ [g.kernel_hash]) ::
    g.artifacts.map fun a =>
      FSEffect.write ((d ++ [g.kernel_hash]) ++ [a.filename]) a.payload

/-- C4: after every call to `collect`, whatever the registry held and whatever
the enablement state, the registry is `None` (uninitialized); consequently a
second `collect` invoked before the next `begin_compile` returns an empty
sequence. -/
theorem collect_drains_registry_second_collect_empty
    (cfg : TritonBundlerConfig) (st : BundlerEntries) (fs fs' : FS) :
    (TritonBundler.collect cfg st fs).1 = none ∧
    TritonBundler.collect cfg (TritonBundler.collect cfg st fs).1 fs' = (none, []) := by
  unfold TritonBundler.collect
  rcases st with _ | es <;> by_cases h : TritonBundler.is_enabled cfg <;> simp [h]

/-- C7: calling `begin_compile` while bundling is enabled and the registry is
already active fails via the `assert cls._entries is None` (modelled by
`none`), rather than silently replacing or keeping the entry set. -/
theorem begin_compile_overlapping_episode_fatal
    (cfg : TritonBundlerConfig) (he : TritonBundler.is_enabled cfg = true)
    (es : List TritonBundleEntry) :
    TritonBundler.begin_compile cfg (some es) = none := by
  simp [TritonBundler.begin_compile, he]

/-- Witness for C7 at a concrete enabled configuration and active registry. -/
theorem begin_compile_overlapping_episode_fatal_witness :
    TritonBundler.is_enabled cfgOn = true ∧
    TritonBundler.begin_compile cfgOn (some []) = none :=
  ⟨by decide, begin_compile_overlapping_episode_fatal cfgOn (by decide) []⟩

/-- C8: calling `put` on an active registry with no `TRITON_CACHE_DIR`
established fails via the `assert triton_cache_dir is not None` (modelled by
`none`): nothing is inserted and the call does not silently succeed. -/
theorem put_without_cache_dir_fatal
    (es : List TritonBundleEntry) (kh : String) (dev : Int) :
    TritonBundler.put (some es) none kh dev = none := rfl

/-- C5: on an active registry, a second `put` of the same
`(kernel_hash, device)` pair under the same cache directory is a no-op (the
state after the second call equals the state after the first), and the
resulting registry holds exactly one corresponding entry. The hypothesis that
the entry occurs at most once reflects that the registry is a Python dict,
whose key list never repeats. -/
theorem put_twice_idempotent_single_entry
    (es : List TritonBundleEntry) (dir : List String) (kh : String) (dev : Int)
    (hc : es.count ⟨kh, dev, dir⟩ ≤ 1) :
    (TritonBundler.put (some es) (some dir) kh dev).bind
        (fun st => TritonBundler.put st (some dir) kh dev)
      = TritonBundler.put (some es) (some dir) kh dev ∧
    ∀ es1, TritonBundler.put (some es) (some dir) kh dev = some (some es1) →
      es1.count ⟨kh, dev, dir⟩ = 1 := by
  constructor
  · by_cases hmem : (⟨kh, dev, dir⟩ : TritonBundleEntry) ∈ es <;>
      simp [TritonBundler.put, hmem]
  · intro es1 heq
    by_cases hmem : (⟨kh, dev, dir⟩ : TritonBundleEntry) ∈ es
    · simp [TritonBundler.put, hmem] at heq
      subst heq
      have h1 : 0 < es.count ⟨kh, dev, dir⟩ := List.count_pos_iff.mpr hmem
      omega
    · simp [TritonBundler.put, hmem] at heq
      subst heq
      simp [List.count_append, List.count_eq_zero.mpr hmem]

/-- Witness for C5 at a concrete registry, directory and key. -/
theorem put_twice_idempotent_single_entry_witness :
    ([] : List TritonBundleEntry).count ⟨"h", 0, ["d"]⟩ ≤ 1 ∧
    ((TritonBundler.put (some []) (some ["d"]) "h" 0).bind
        (fun st => TritonBundler.put st (some ["d"]) "h" 0)
      = TritonBundler.put (some []) (some ["d"]) "h" 0 ∧
    ∀ es1, TritonBundler.put (some []) (some ["d"]) "h" 0 = some (some es1) →
      es1.count ⟨"h", 0, ["d"]⟩ = 1) :=
  ⟨by decide, put_twice_idempotent_single_entry [] ["d"] "h" 0 (by decide)⟩

/-- C10: entry identity includes the cache directory: two `put` calls with the
same `(kernel_hash, device)` under different cache directories insert two
distinct entries, and `collect` processes both of them. -/
theorem put_distinct_directories_two_entries
    (kh : String) (dev : Int) (d1 d2 : List String) (hne : d1 ≠ d2) :
    TritonBundler.put (some []) (some d1) kh dev = some (some [⟨kh, dev, d1⟩]) ∧
    TritonBundler.put (some [⟨kh, dev, d1⟩]) (some d2) kh dev
      = some (some [⟨kh, dev, d1⟩, ⟨kh, dev, d2⟩]) ∧
    (⟨kh, dev, d1⟩ : TritonBundleEntry) ≠ ⟨kh, dev, d2⟩ ∧
    ∀ cfg fs, TritonBundler.is_enabled cfg = true →
      TritonBundler.collect cfg (some [⟨kh, dev, d1⟩, ⟨kh, dev, d2⟩]) fs
        = (none,
            (([TritonBundler.collectGroup fs ⟨kh, dev, d1⟩,
               TritonBundler.collectGroup fs ⟨kh, dev, d2⟩]).filterMap id)) := by
  have hd : (⟨kh, dev, d1⟩ : TritonBundleEntry) ≠ ⟨kh, dev, d2⟩ := by
    intro h
    exact hne (congrArg TritonBundleEntry.directory h)
  refine ⟨by simp [TritonBundler.put], ?_, hd, ?_⟩
  · simp only [TritonBundler.put, List.mem_singleton]
    rw [if_neg (fun h => hd h.symm)]
    rfl
  · intro cfg fs he
    simp [TritonBundler.collect, he, List.filterMap_cons]

/-- Witness for C10 at concrete key and directories. -/
theorem put_distinct_directories_two_entries_witness :
    (["a"] : List String) ≠ ["b"] ∧
    (TritonBundler.put (some []) (some ["a"]) "h" 0 = some (some [⟨"h", 0, ["a"]⟩]) ∧
    TritonBundler.put (some [⟨"h", 0, ["a"]⟩]) (some ["b"]) "h" 0
      = some (some [⟨"h", 0, ["a"]⟩, ⟨"h", 0, ["b"]⟩]) ∧
    (⟨"h", 0, ["a"]⟩ : TritonBundleEntry) ≠ ⟨"h", 0, ["b"]⟩ ∧
    ∀ cfg fs, TritonBundler.is_enabled cfg = true →
      TritonBundler.collect cfg (some [⟨"h", 0, ["a"]⟩, ⟨"h", 0, ["b"]⟩]) fs
        = (none,
            (([TritonBundler.collectGroup fs ⟨"h", 0, ["a"]⟩,
               TritonBundler.collectGroup fs ⟨"h", 0, ["b"]⟩]).filterMap id))) :=
  ⟨by decide, put_distinct_directories_two_entries "h" 0 ["a"] ["b"] (by decide)⟩

/-- Under a disabled configuration, every single bundler call maps the
uninitialized registry to the uninitialized registry without failing. -/
theorem runOp_disabled_none (cfg : TritonBundlerConfig)
    (hd : TritonBundler.is_enabled cfg = false) (op : BundlerOp) :
    runOp cfg none op = some none := by
  cases op with
  | begin_compile => simp [runOp, TritonBundler.begin_compile, hd]
  | put tcd kh dev => rfl
  | collect fs => simp [runOp, TritonBundler.collect, hd]

/-- C9: whenever bundling is disabled, `begin_compile` leaves the registry
unchanged, `put` (whose guard is the registry itself, which every disabled run
keeps uninitialized — last conjunct) leaves it unchanged, `collect` returns an
empty sequence and clears any residual entries, and
`write_bundle_to_file_system` performs no filesystem effects. -/
theorem disabled_operations_inert (cfg : TritonBundlerConfig)
    (hd : TritonBundler.is_enabled cfg = false) :
    (∀ st, TritonBundler.begin_compile cfg st = some st) ∧
    (∀ tcd kh dev, TritonBundler.put none tcd kh dev = some none) ∧
    (∀ st fs, TritonBundler.collect cfg st fs = (none, [])) ∧
    (∀ tcd root bundle,
      TritonBundler.write_bundle_to_file_system cfg tcd root bundle = []) ∧
    (∀ ops, runOps cfg none ops = some none) := by
  refine ⟨?_, ?_, ?_, ?_, ?_⟩
  · intro st
    simp [TritonBundler.begin_compile, hd]
  · intro tcd kh dev
    rfl
  · intro st fs
    simp [TritonBundler.collect, hd]
  · intro tcd root bundle
    simp [TritonBundler.write_bundle_to_file_system, hd]
  · intro ops
    induction ops with
    | nil => rfl
    | cons op ops ih => simp [runOps, runOp_disabled_none cfg hd op, ih]

/-- Witness for C9 at a concrete disabled configuration, with a residual
active registry for `collect` and a concrete call sequence. -/
theorem disabled_operations_inert_witness :
    TritonBundler.is_enabled cfgOff = false ∧
    TritonBundler.begin_compile cfgOff (some [⟨"h", 0, ["d"]⟩]) = some (some [⟨"h", 0, ["d"]⟩]) ∧
    TritonBundler.collect cfgOff (some [⟨"h", 0, ["d"]⟩]) fsTwoFiles = (none, []) ∧
    TritonBundler.write_bundle_to_file_system cfgOff (some ["o"]) ["root"] bundleOne = [] ∧
    runOps cfgOff none
      [BundlerOp.begin_compile, BundlerOp.put (some ["d"]) "h" 0,
       BundlerOp.collect fsTwoFiles] = some none :=
  ⟨by decide,
   (disabled_operations_inert cfgOff (by decide)).1 _,
   (disabled_operations_inert cfgOff (by decide)).2.2.1 _ _,
   (disabled_operations_inert cfgOff (by decide)).2.2.2.1 _ _ _,
   (disabled_operations_inert cfgOff (by decide)).2.2.2.2 _⟩

/-- C6: every group returned by `collect` has at least one artifact, and an
entry whose candidate path `directory/kernel_hash` does not exist contributes
no group — wherever it sits among the entries, the collection result is the
same as without it (and `collect`, a total function, raises no error). -/
theorem collect_groups_nonempty_absent_dir_skipped
    (cfg : TritonBundlerConfig) (fs : FS) :
    (∀ st g, g ∈ (TritonBundler.collect cfg st fs).2 → g.artifacts ≠ []) ∧
    (∀ e : TritonBundleEntry,
      fs.pathExists (e.directory ++ [e.kernel_hash]) = false →
      TritonBundler.collectGroup fs e = none ∧
      ∀ l1 l2 : List TritonBundleEntry,
        TritonBundler.collect cfg (some (l1 ++ e :: l2)) fs
          = TritonBundler.collect cfg (some (l1 ++ l2)) fs) := by
  constructor
  · intro st g hg
    unfold TritonBundler.collect at hg
    by_cases he : TritonBundler.is_enabled cfg
    · simp [he] at hg
      rcases st with _ | entries
      · simp at hg
      · simp at hg
        obtain ⟨e, _, hge⟩ := hg
        unfold TritonBundler.collectGroup at hge
        by_cases hp : fs.pathExists (e.directory ++ [e.kernel_hash])
        · simp [hp] at hge
          obtain ⟨hne, hg⟩ := hge
          rw [← hg]
          simpa using hne
        · simp [hp] at hge
    · simp [he] at hg
  · intro e hp
    have hnone : TritonBundler.collectGroup fs e = none := by
      unfold TritonBundler.collectGroup
      simp [hp]
    refine ⟨hnone, ?_⟩
    intro l1 l2
    unfold TritonBundler.collect
    by_cases he : TritonBundler.is_enabled cfg <;>
      simp [he, List.filterMap_append, List.filterMap_cons, hnone]

/-- Witness for C6: concrete collection where the entry `e2`'s directory is
absent; it contributes no group while `e1` still does. -/
theorem collect_groups_nonempty_absent_dir_skipped_witness :
    fsTwoFiles.pathExists (["x"] ++ ["h2"]) = false ∧
    TritonBundler.collectGroup fsTwoFiles ⟨"h2", 1, ["x"]⟩ = none ∧
    TritonBundler.collect cfgOn (some ([⟨"h", 0, ["d"]⟩] ++ ⟨"h2", 1, ["x"]⟩ :: []))
        fsTwoFiles
      = TritonBundler.collect cfgOn (some ([⟨"h", 0, ["d"]⟩] ++ [])) fsTwoFiles :=
  ⟨by decide,
   ((collect_groups_nonempty_absent_dir_skipped cfgOn fsTwoFiles).2
      ⟨"h2", 1, ["x"]⟩ (by decide)).1,
   ((collect_groups_nonempty_absent_dir_skipped cfgOn fsTwoFiles).2
      ⟨"h2", 1, ["x"]⟩ (by decide)).2 [⟨"h", 0, ["d"]⟩] []⟩

/-- C3: with an override cache directory `d`, every artifact is written at
`d/kernel_hash/filename` with no device segment; with no override, every
artifact is written at `cache_root/triton/kernel_hash/device/filename`; in both
cases the group directory is created first (`mkdir(parents=True)`). -/
theorem write_bundle_layout (cfg : TritonBundlerConfig)
    (he : TritonBundler.is_enabled cfg = true) (d root : List String)
    (bundle : List TritonKernelArtifacts) :
    TritonBundler.write_bundle_to_file_system cfg (some d) root bundle
      = (bundle.flatMap fun g =>
          FSEffect.mkdirs (d ++ [g.kernel_hash]) ::
            g.artifacts.map fun a =>
              FSEffect.write (d ++ [g.kernel_hash, a.filename]) a.payload) ∧
    TritonBundler.write_bundle_to_file_system cfg none root bundle
      = (bundle.flatMap fun g =>
          FSEffect.mkdirs (root ++ ["triton", g.kernel_hash, toString g.device]) ::
            g.artifacts.map fun a =>
              FSEffect.write
                (root ++ ["triton", g.kernel_hash, toString g.device, a.filename])
                a.payload) := by
  constructor <;>
    · unfold TritonBundler.write_bundle_to_file_system
      simp [he]

/-- Witness for C3 at a concrete enabled configuration and one-group bundle. -/
theorem write_bundle_layout_witness :
    TritonBundler.is_enabled cfgOn = true ∧
    (TritonBundler.write_bundle_to_file_system cfgOn (some ["o"]) ["root"] bundleOne
      = (bundleOne.flatMap fun g =>
          FSEffect.mkdirs (["o"] ++ [g.kernel_hash]) ::
            g.artifacts.map fun a =>
              FSEffect.write (["o"] ++ [g.kernel_hash, a.filename]) a.payload) ∧
    TritonBundler.write_bundle_to_file_system cfgOn none ["root"] bundleOne
      = (bundleOne.flatMap fun g =>
          FSEffect.mkdirs (["root"] ++ ["triton", g.kernel_hash, toString g.device]) ::
            g.artifacts.map fun a =>
              FSEffect.write
                (["root"] ++ ["triton", g.kernel_hash, toString g.device, a.filename])
                a.payload)) :=
  ⟨by decide, write_bundle_layout cfgOn (by decide) ["o"] ["root"] bundleOne⟩

/-- Any artifact produced by `readArtifact` carries the child's filename. -/
theorem readArtifact_filename (fs : FS) (path : List String) (f : String)
    (a : TritonKernelArtifact) (h : TritonBundler.readArtifact fs path f = some a) :
    a.filename = f := by
  unfold TritonBundler.readArtifact at h
  by_cases hb : fs.isfile (path ++ [f])
  · rw [if_pos hb] at h
    cases hr : fs.readFile (path ++ [f]) with
    | none => rw [hr] at h; cases h
    | some pl => rw [hr] at h; cases h; rfl
  · rw [if_neg hb] at h; cases h

/-- C1: per-file failure isolation in `collect`. If `fs'` is `fs` with the
single child `c` of directory `p` failing (not a regular file, or an I/O error
on read) and everything else unchanged, then the artifacts collected from `p`
are exactly those of `fs` minus the child `c`, every entry whose candidate path
is not `p` yields an unchanged group, and a full enabled collection differs
from the unbroken one only at entries whose candidate path is `p`. -/
theorem collect_isolates_single_file_failure (fs fs' : FS) (p : List String)
    (c : String)
    (hE : ∀ q, fs'.pathExists q = fs.pathExists q)
    (hL : ∀ q, fs'.listdir q = fs.listdir q)
    (hI : ∀ q, q ≠ p ++ [c] → fs'.isfile q = fs.isfile q)
    (hR : ∀ q, q ≠ p ++ [c] → fs'.readFile q = fs.readFile q)
    (hfail : fs'.isfile (p ++ [c]) = false ∨ fs'.readFile (p ++ [c]) = none) :
    TritonBundler.collectArtifacts fs' p
        = (TritonBundler.collectArtifacts fs p).filter (fun a => a.filename ≠ c) ∧
    (∀ e : TritonBundleEntry, e.directory ++ [e.kernel_hash] ≠ p →
      TritonBundler.collectGroup fs' e = TritonBundler.collectGroup fs e) ∧
    (∀ cfg entries, TritonBundler.is_enabled cfg = true →
      (TritonBundler.collect cfg (some entries) fs').2
        = entries.filterMap fun e =>
            if e.directory ++ [e.kernel_hash] = p then
              TritonBundler.collectGroup fs' e
            else TritonBundler.collectGroup fs e) := by
  have hcc : TritonBundler.readArtifact fs' p c = none := by
    unfold TritonBundler.readArtifact
    rcases hfail with h1 | h1 <;> simp [h1]
  have hne : ∀ f, f ≠ c →
      TritonBundler.readArtifact fs' p f = TritonBundler.readArtifact fs p f := by
    intro f hf
    have hq : p ++ [f] ≠ p ++ [c] := by
      intro h
      apply hf
      have := List.append_cancel_left h
      exact List.singleton_injective this
    unfold TritonBundler.readArtifact
    simp only [hI _ hq, hR _ hq]
  have hother : ∀ q, q ≠ p →
      TritonBundler.collectArtifacts fs' q = TritonBundler.collectArtifacts fs q := by
    intro q hqp
    unfold TritonBundler.collectArtifacts
    rw [hL]
    apply List.filterMap_congr
    intro f _
    have hq : q ++ [f] ≠ p ++ [c] := by
      intro h
      exact hqp (List.append_inj' h rfl).1
    unfold TritonBundler.readArtifact
    simp only [hI _ hq, hR _ hq]
  have hmain : TritonBundler.collectArtifacts fs' p
      = (TritonBundler.collectArtifacts fs p).filter (fun a => a.filename ≠ c) := by
    unfold TritonBundler.collectArtifacts
    rw [hL]
    induction fs.listdir p with
    | nil => rfl
    | cons f l ih =>
      rw [List.filterMap_cons, List.filterMap_cons]
      by_cases hfc : f = c
      · subst hfc
        rw [hcc]
        cases hsc : TritonBundler.readArtifact fs p f with
        | none => exact ih
        | some a =>
          have haf : a.filename = f := readArtifact_filename fs p f a hsc
          simp [List.filter_cons, haf]
          simpa using ih
      · rw [hne f hfc]
        cases hsc : TritonBundler.readArtifact fs p f with
        | none => exact ih
        | some a =>
          have haf : a.filename = f := readArtifact_filename fs p f a hsc
          simp [List.filter_cons, haf, hfc]
          simpa using ih
  refine ⟨hmain, ?_, ?_⟩
  · intro e hep
    unfold TritonBundler.collectGroup
    simp only [hE, hother _ hep]
  · intro cfg entries he
    unfold TritonBundler.collect
    simp only [he, not_true_eq_false, if_false]
    apply List.filterMap_congr
    intro e _
    by_cases hep : e.directory ++ [e.kernel_hash] = p
    · rw [if_pos hep]
    · rw [if_neg hep]
      unfold TritonBundler.collectGroup
      simp only [hE, hother _ hep]

/-- Witness for C1: in `fsTwoFiles`, breaking the file `b` leaves exactly the
artifact `a`; the unbroken collection filtered at `b` agrees. -/
theorem collect_isolates_single_file_failure_witness :
    TritonBundler.collectArtifacts (fsTwoFiles.breakFile ["d", "h", "b"]) ["d", "h"]
        = (TritonBundler.collectArtifacts fsTwoFiles ["d", "h"]).filter
            (fun a => a.filename ≠ "b") ∧
    (TritonBundler.collectArtifacts fsTwoFiles ["d", "h"]).filter
        (fun a => a.filename ≠ "b") = [⟨"a", [1]⟩] :=
  ⟨(collect_isolates_single_file_failure fsTwoFiles
      (fsTwoFiles.breakFile ["d", "h", "b"]) ["d", "h"] "b"
      (fun _ => rfl) (fun _ => rfl) (fun _ _ => rfl)
      (fun q hq => by
        have hq' : q ≠ ["d", "h", "b"] := hq
        simp [FS.breakFile, hq'])
      (Or.inr (by simp [FS.breakFile]))).1,
   by decide⟩

/-- A path leads to itself. -/
theorem leadsTo_refl (p : List String) : leadsTo p p = true := by
  induction p with
  | nil => rfl
  | cons a as ih => simp [leadsTo, ih]

/-- A path leads to any extension of itself. -/
theorem leadsTo_append (p q : List String) : leadsTo p (p ++ q) = true := by
  induction p with
  | nil => rfl
  | cons a as ih => simp [leadsTo, ih]

/-- Stripping a common prefix preserves `leadsTo`. -/
theorem leadsTo_append_left (p q r : List String) :
    leadsTo (p ++ q) (p ++ r) = leadsTo q r := by
  induction p with
  | nil => rfl
  | cons a as ih => simp [leadsTo, ih]

/-- Computation rule for `childName` one level below a common prefix. -/
theorem childName_of_append (p : List String) (a b : String) (l : List String) :
    childName (p ++ [a]) (p ++ b :: l) = if a = b then l.head? else none := by
  unfold childName
  by_cases hab : a = b
  · subst hab
    have h1 : leadsTo (p ++ [a]) (p ++ a :: l) = true := by
      have h2 : p ++ a :: l = (p ++ [a]) ++ l := by simp
      rw [h2]
      exact leadsTo_append (p ++ [a]) l
    have h2 : (p ++ a :: l).drop (p ++ [a]).length = l := by
      have h3 : p ++ a :: l = (p ++ [a]) ++ l := by simp
      rw [h3, List.drop_left]
    simp [h1, h2]
  · have h1 : leadsTo (p ++ [a]) (p ++ b :: l) = false := by
      rw [show p ++ b :: l = p ++ (b :: l) from rfl, leadsTo_append_left p [a] (b :: l)]
      simp [leadsTo, hab]
    simp [h1, hab]

/-- Exchanging a `filterMap` with a `flatMap`. -/
theorem filterMap_flatMap_eq {α β γ : Type} (l : List α) (g : α → List β)
    (f : β → Option γ) :
    (l.flatMap g).filterMap f = l.flatMap fun a => (g a).filterMap f := by
  induction l with
  | nil => rfl
  | cons x xs ih => simp [List.flatMap_cons, List.filterMap_append, ih]

/-- A `flatMap` all of whose pieces are empty is empty. -/
theorem flatMap_eq_nil_of {α β : Type} (l : List α) (g : α → List β)
    (h : ∀ a ∈ l, g a = []) : l.flatMap g = [] := by
  induction l with
  | nil => rfl
  | cons x xs ih =>
    rw [List.flatMap_cons, h x (List.mem_cons_self x xs),
      ih fun a ha => h a (List.mem_cons_of_mem x ha)]
    rfl

/-- One `writeStep` on an arbitrary accumulator factors through the step on an
empty accumulator. -/
theorem writeStep_or (p : List String) (acc : Option (List Nat)) (eff : FSEffect) :
    writeStep p acc eff = (writeStep p none eff).or acc := by
  cases eff with
  | mkdirs d => simp [writeStep]
  | write q pl =>
    by_cases hq : q = p <;> simp [writeStep, hq]

/-- Folding `writeStep` from an arbitrary accumulator computes `lastWriteAt`
with the accumulator as fallback. -/
theorem foldl_writeStep (p : List String) (effects : List FSEffect)
    (acc : Option (List Nat)) :
    effects.foldl (writeStep p) acc = (lastWriteAt effects p).or acc := by
  induction effects generalizing acc with
  | nil => simp [lastWriteAt]
  | cons eff effs ih =>
    rw [List.foldl_cons, ih (writeStep p acc eff)]
    have hR : lastWriteAt (eff :: effs) p
        = (lastWriteAt effs p).or (writeStep p none eff) := by
      unfold lastWriteAt
      rw [List.foldl_cons, ih (writeStep p none eff)]
      rfl
    rw [hR, Option.or_assoc, ← writeStep_or]

/-- `lastWriteAt` over a concatenation: the later segment wins. -/
theorem lastWriteAt_append (p : List String) (xs ys : List FSEffect) :
    lastWriteAt (xs ++ ys) p = (lastWriteAt ys p).or (lastWriteAt xs p) := by
  unfold lastWriteAt
  rw [List.foldl_append]
  exact foldl_writeStep p ys (xs.foldl (writeStep p) none)

/-- `lastWriteAt` ignores a leading `mkdirs`. -/
theorem lastWriteAt_cons_mkdirs (d p : List String) (effs : List FSEffect) :
    lastWriteAt (FSEffect.mkdirs d :: effs) p = lastWriteAt effs p := rfl

/-- `lastWriteAt` over a leading write: the tail wins when it writes `p`. -/
theorem lastWriteAt_cons_write (q p : List String) (pl : List Nat)
    (effs : List FSEffect) :
    lastWriteAt (FSEffect.write q pl :: effs) p
      = (lastWriteAt effs p).or (if q = p then some pl else none) := by
  unfold lastWriteAt
  rw [List.foldl_cons, foldl_writeStep]
  rfl

/-- An effect list with no write to `p` leaves `p` empty. -/
theorem lastWriteAt_eq_none (effects : List FSEffect) (p : List String)
    (h : ∀ q pl, FSEffect.write q pl ∈ effects → q ≠ p) :
    lastWriteAt effects p = none := by
  induction effects with
  | nil => rfl
  | cons eff effs ih =>
    have htail : lastWriteAt effs p = none :=
      ih fun q pl hm => h q pl (List.mem_cons_of_mem eff hm)
    cases eff with
    | mkdirs d => rw [lastWriteAt_cons_mkdirs, htail]
    | write q pl =>
      rw [lastWriteAt_cons_write, htail,
        if_neg (h q pl (List.mem_cons_self _ _)), Option.none_or]

/-- With an override directory configured and bundling enabled,
`write_bundle_to_file_system` emits exactly the per-group override effects, in
bundle order. -/
theorem write_bundle_override_effects (cfg : TritonBundlerConfig)
    (he : TritonBundler.is_enabled cfg = true) (d root : List String)
    (bundle : List TritonKernelArtifacts) :
    TritonBundler.write_bundle_to_file_system cfg (some d) root bundle
      = bundle.flatMap (overrideGroupEffects d) := by
  unfold TritonBundler.write_bundle_to_file_system overrideGroupEffects
  simp [he]

/-- The children of `d/h` contributed by one group's override effects: the
group's filenames when its hash is `h`, nothing otherwise. -/
theorem childName_overrideGroupEffects (d : List String) (h : String)
    (g : TritonKernelArtifacts) :
    (overrideGroupEffects d g).filterMap
        (fun eff => childName (d ++ [h]) eff.path)
      = if g.kernel_hash = h then g.artifacts.map (fun a => a.filename) else [] := by
  unfold overrideGroupEffects
  rw [List.filterMap_cons]
  have h0 : childName (d ++ [h]) (FSEffect.mkdirs (d ++ [g.kernel_hash])).path
      = none := by
    show childName (d ++ [h]) (d ++ [g.kernel_hash]) = none
    rw [show d ++ [g.kernel_hash] = d ++ g.kernel_hash :: [] from rfl,
      childName_of_append]
    by_cases hk : h = g.kernel_hash <;> simp [hk]
  rw [h0]
  rw [List.filterMap_map]
  have h1 : ∀ a : TritonKernelArtifact,
      ((fun eff => childName (d ++ [h]) (FSEffect.path eff)) ∘
          fun a => FSEffect.write ((d ++ [g.kernel_hash]) ++ [a.filename]) a.payload) a
        = if g.kernel_hash = h then some a.filename else none := by
    intro a
    show childName (d ++ [h]) ((d ++ [g.kernel_hash]) ++ [a.filename])
        = if g.kernel_hash = h then some a.filename else none
    rw [show (d ++ [g.kernel_hash]) ++ [a.filename]
        = d ++ g.kernel_hash :: [a.filename] by simp, childName_of_append]
    by_cases hk : g.kernel_hash = h
    · simp [hk]
    · simp [hk, Ne.symm hk]
  by_cases hk : g.kernel_hash = h
  · rw [if_pos hk]
    rw [List.filterMap_congr fun a _ => h1 a]
    simp only [hk, if_true]
    exact congrFun (List.filterMap_eq_map fun a : TritonKernelArtifact => a.filename)
      g.artifacts
  · rw [if_neg hk]
    rw [List.filterMap_congr fun a _ => h1 a]
    simp [hk]

/-- Groups whose hash differs from `h` never write under the directory `d/h`. -/
theorem lastWriteAt_overrideGroups_ne (d : List String) (h f : String)
    (l : List TritonKernelArtifacts)
    (hne : ∀ g ∈ l, g.kernel_hash ≠ h) :
    lastWriteAt (l.flatMap (overrideGroupEffects d)) ((d ++ [h]) ++ [f]) = none := by
  apply lastWriteAt_eq_none
  intro q pl hmem hq
  obtain ⟨g, hg, hw⟩ := List.mem_flatMap.mp hmem
  unfold overrideGroupEffects at hw
  rcases List.mem_cons.mp hw with h1 | h1
  · cases h1
  · obtain ⟨a, _, hEq⟩ := List.mem_map.mp h1
    injection hEq with hP _
    have h2 : (d ++ [g.kernel_hash]) ++ [a.filename] = (d ++ [h]) ++ [f] := by
      rw [hP, hq]
    have h3 : d ++ [g.kernel_hash] = d ++ [h] := (List.append_inj' h2 rfl).1
    have h4 : g.kernel_hash = h :=
      List.singleton_injective (List.append_cancel_left h3)
    exact hne g hg h4

/-- Looking up an artifact's file among the writes of its own group, with
distinct filenames. -/
theorem lastWriteAt_writes_self (q : List String) (l : List TritonKernelArtifact)
    (hf : (l.map (fun a => a.filename)).Nodup) (a : TritonKernelArtifact)
    (ha : a ∈ l) :
    lastWriteAt (l.map fun x => FSEffect.write (q ++ [x.filename]) x.payload)
        (q ++ [a.filename]) = some a.payload := by
  induction l with
  | nil => cases ha
  | cons b l ih =>
    rw [List.map_cons, lastWriteAt_cons_write]
    rw [List.map_cons, List.nodup_cons] at hf
    obtain ⟨hb, hl⟩ := hf
    rcases List.mem_cons.mp ha with rfl | hal
    · have hrest : lastWriteAt
          (l.map fun x => FSEffect.write (q ++ [x.filename]) x.payload)
          (q ++ [a.filename]) = none := by
        apply lastWriteAt_eq_none
        intro q' pl hmem hq'
        obtain ⟨x, hx, hEq⟩ := List.mem_map.mp hmem
        injection hEq with hP _
        have h2 : q ++ [x.filename] = q ++ [a.filename] := by rw [hP, hq']
        have h3 : x.filename = a.filename :=
          List.singleton_injective (List.append_cancel_left h2)
        exact hb (h3 ▸ List.mem_map_of_mem (fun y => y.filename) hx)
      rw [hrest, Option.none_or, if_pos rfl]
    · have hafb : a.filename ≠ b.filename := by
        intro hEq
        exact hb (hEq ▸ List.mem_map_of_mem (fun y => y.filename) hal)
      have hcond : q ++ [b.filename] ≠ q ++ [a.filename] := by
        intro hEq
        exact hafb (List.singleton_injective (List.append_cancel_left hEq)).symm
      rw [if_neg hcond, Option.or_none]
      exact ih hl hal

/-- The directory `d/kernel_hash` exists after an override bundle write that
contains the group. -/
theorem pathExists_fsOfEffects_override (d : List String)
    (l1 l2 : List TritonKernelArtifacts) (g : TritonKernelArtifacts) :
    (fsOfEffects ((l1 ++ g :: l2).flatMap (overrideGroupEffects d))).pathExists
        (d ++ [g.kernel_hash]) = true := by
  show List.any _ _ = true
  rw [List.any_eq_true]
  refine ⟨FSEffect.mkdirs (d ++ [g.kernel_hash]), ?_, ?_⟩
  · rw [List.mem_flatMap]
    refine ⟨g, by simp, ?_⟩
    unfold overrideGroupEffects
    exact List.mem_cons_self _ _
  · exact leadsTo_refl _

/-- After an override bundle write, every artifact file of a contained group
is a regular file. -/
theorem isfile_fsOfEffects_override (d : List String)
    (l1 l2 : List TritonKernelArtifacts) (g : TritonKernelArtifacts)
    (a : TritonKernelArtifact) (ha : a ∈ g.artifacts) :
    (fsOfEffects ((l1 ++ g :: l2).flatMap (overrideGroupEffects d))).isfile
        ((d ++ [g.kernel_hash]) ++ [a.filename]) = true := by
  show List.any _ _ = true
  rw [List.any_eq_true]
  refine ⟨FSEffect.write ((d ++ [g.kernel_hash]) ++ [a.filename]) a.payload,
    ?_, by simp⟩
  rw [List.mem_flatMap]
  refine ⟨g, by simp, ?_⟩
  unfold overrideGroupEffects
  exact List.mem_cons_of_mem _
    (List.mem_map_of_mem (fun x => FSEffect.write ((d ++ [g.kernel_hash]) ++ [x.filename]) x.payload) ha)

/-- After an override bundle write with pairwise-distinct hashes, listing
`d/kernel_hash` returns exactly the group's filenames, in artifact order. -/
theorem listdir_fsOfEffects_override (d : List String)
    (l1 l2 : List TritonKernelArtifacts) (g : TritonKernelArtifacts)
    (h1 : ∀ g' ∈ l1, g'.kernel_hash ≠ g.kernel_hash)
    (h2 : ∀ g' ∈ l2, g'.kernel_hash ≠ g.kernel_hash)
    (hf : (g.artifacts.map (fun a => a.filename)).Nodup) :
    (fsOfEffects ((l1 ++ g :: l2).flatMap (overrideGroupEffects d))).listdir
        (d ++ [g.kernel_hash])
      = g.artifacts.map (fun a => a.filename) := by
  show (((l1 ++ g :: l2).flatMap (overrideGroupEffects d)).filterMap
      (fun eff => childName (d ++ [g.kernel_hash]) eff.path)).dedup
    = g.artifacts.map (fun a => a.filename)
  rw [filterMap_flatMap_eq, List.flatMap_append, List.flatMap_cons]
  rw [flatMap_eq_nil_of l1 _ fun g' hg' =>
    (childName_overrideGroupEffects d g.kernel_hash g').trans (if_neg (h1 g' hg'))]
  rw [flatMap_eq_nil_of l2 _ fun g' hg' =>
    (childName_overrideGroupEffects d g.kernel_hash g').trans (if_neg (h2 g' hg'))]
  rw [childName_overrideGroupEffects d g.kernel_hash g, if_pos rfl]
  simp [List.dedup_eq_self.mpr hf]

/-- After an override bundle write with pairwise-distinct hashes and distinct
filenames, reading an artifact's file returns exactly its payload. -/
theorem readFile_fsOfEffects_override (d : List String)
    (l1 l2 : List TritonKernelArtifacts) (g : TritonKernelArtifacts)
    (h1 : ∀ g' ∈ l1, g'.kernel_hash ≠ g.kernel_hash)
    (h2 : ∀ g' ∈ l2, g'.kernel_hash ≠ g.kernel_hash)
    (hf : (g.artifacts.map (fun a => a.filename)).Nodup)
    (a : TritonKernelArtifact) (ha : a ∈ g.artifacts) :
    (fsOfEffects ((l1 ++ g :: l2).flatMap (overrideGroupEffects d))).readFile
        ((d ++ [g.kernel_hash]) ++ [a.filename])
      = some a.payload := by
  show lastWriteAt ((l1 ++ g :: l2).flatMap (overrideGroupEffects d))
      ((d ++ [g.kernel_hash]) ++ [a.filename]) = some a.payload
  rw [List.flatMap_append, List.flatMap_cons]
  rw [lastWriteAt_append, lastWriteAt_append]
  have hB : lastWriteAt (overrideGroupEffects d g)
      ((d ++ [g.kernel_hash]) ++ [a.filename]) = some a.payload := by
    unfold overrideGroupEffects
    rw [lastWriteAt_cons_mkdirs]
    exact lastWriteAt_writes_self (d ++ [g.kernel_hash]) g.artifacts hf a ha
  rw [hB, lastWriteAt_overrideGroups_ne d g.kernel_hash a.filename l2 h2,
    lastWriteAt_overrideGroups_ne d g.kernel_hash a.filename l1 h1,
    Option.none_or, Option.or_none]

/-- A `filterMap` that keeps an element unless a predicate holds is a filter. -/
theorem filterMap_ite_eq_filter {α : Type} (pr : α → Bool) (l : List α) :
    (l.filterMap fun a => if pr a then none else some a)
      = l.filter fun a => !pr a := by
  induction l with
  | nil => rfl
  | cons x xs ih =>
    by_cases hx : pr x <;> simp [List.filterMap_cons, List.filter_cons, hx, ih]

/-- Core of the override round trip: with pairwise-distinct hashes and
per-group distinct filenames, collecting the entry
`(g.kernel_hash, g.device, d)` against the filesystem produced by the override
bundle write reproduces `g` exactly — or nothing when `g` has no artifacts. -/
theorem collectGroup_override_roundtrip (cfg : TritonBundlerConfig)
    (he : TritonBundler.is_enabled cfg = true) (d root : List String)
    (bundle : List TritonKernelArtifacts)
    (hn : (bundle.map (fun g => g.kernel_hash)).Nodup)
    (hf : ∀ g ∈ bundle, (g.artifacts.map (fun a => a.filename)).Nodup)
    (g : TritonKernelArtifacts) (hg : g ∈ bundle) :
    TritonBundler.collectGroup
        (fsOfEffects
          (TritonBundler.write_bundle_to_file_system cfg (some d) root bundle))
        ⟨g.kernel_hash, g.device, d⟩
      = if g.artifacts.isEmpty then none else some g := by
  rw [write_bundle_override_effects cfg he d root bundle]
  have hfg : (g.artifacts.map (fun a => a.filename)).Nodup := hf g hg
  obtain ⟨l1, l2, rfl⟩ := List.append_of_mem hg
  have hmapn := hn
  rw [List.map_append, List.map_cons, List.nodup_append] at hmapn
  obtain ⟨_, hcons, hdisj⟩ := hmapn
  have h1 : ∀ g' ∈ l1, g'.kernel_hash ≠ g.kernel_hash := by
    intro g' hg' hEq
    exact hdisj (List.mem_map_of_mem (fun x => x.kernel_hash) hg')
      (hEq ▸ List.mem_cons_self _ _)
  have h2 : ∀ g' ∈ l2, g'.kernel_hash ≠ g.kernel_hash := by
    intro g' hg' hEq
    rw [List.nodup_cons] at hcons
    exact hcons.1 (hEq ▸ List.mem_map_of_mem (fun x => x.kernel_hash) hg')
  have hread : ∀ a ∈ g.artifacts,
      TritonBundler.readArtifact
          (fsOfEffects ((l1 ++ g :: l2).flatMap (overrideGroupEffects d)))
          (d ++ [g.kernel_hash]) a.filename
        = some a := by
    intro a ha
    unfold TritonBundler.readArtifact
    simp only [isfile_fsOfEffects_override d l1 l2 g a ha, if_true,
      readFile_fsOfEffects_override d l1 l2 g h1 h2 hfg a ha]
    rfl
  have hart : TritonBundler.collectArtifacts
      (fsOfEffects ((l1 ++ g :: l2).flatMap (overrideGroupEffects d)))
      (d ++ [g.kernel_hash]) = g.artifacts := by
    unfold TritonBundler.collectArtifacts
    rw [listdir_fsOfEffects_override d l1 l2 g h1 h2 hfg]
    rw [List.filterMap_map]
    have step1 : List.filterMap
        (TritonBundler.readArtifact
            (fsOfEffects ((l1 ++ g :: l2).flatMap (overrideGroupEffects d)))
            (d ++ [g.kernel_hash]) ∘ fun a => a.filename)
        g.artifacts
        = List.filterMap (fun a => some a) g.artifacts :=
      List.filterMap_congr fun a ha => hread a ha
    exact step1.trans
      ((congrFun (List.filterMap_eq_map fun a : TritonKernelArtifact => a)
          g.artifacts).trans (List.map_id g.artifacts))
  unfold TritonBundler.collectGroup
  simp only [pathExists_fsOfEffects_override d l1 l2 g, if_true, hart]

/-- C2 (amended): round trip through the filesystem with an override cache
directory. Writing a bundle whose kernel hashes are pairwise distinct and
whose per-group filenames are distinct, then collecting a fresh episode whose
entries carry each group's kernel hash and device with the override directory,
returns exactly the original groups that have at least one artifact — same
filenames, byte-identical payloads, in order. -/
theorem roundtrip_override_collect (cfg : TritonBundlerConfig)
    (he : TritonBundler.is_enabled cfg = true) (d root : List String)
    (bundle : List TritonKernelArtifacts)
    (hn : (bundle.map (fun g => g.kernel_hash)).Nodup)
    (hf : ∀ g ∈ bundle, (g.artifacts.map (fun a => a.filename)).Nodup) :
    TritonBundler.collect cfg
        (some (bundle.map fun g => ⟨g.kernel_hash, g.device, d⟩))
        (fsOfEffects
          (TritonBundler.write_bundle_to_file_system cfg (some d) root bundle))
      = (none, bundle.filter fun g => !g.artifacts.isEmpty) := by
  unfold TritonBundler.collect
  simp only [he, not_true_eq_false, if_false]
  refine congrArg (Prod.mk none) ?_
  have step : List.filterMap
      (TritonBundler.collectGroup
          (fsOfEffects
            (TritonBundler.write_bundle_to_file_system cfg (some d) root bundle)) ∘
        fun g => (⟨g.kernel_hash, g.device, d⟩ : TritonBundleEntry))
      bundle
      = List.filterMap (fun g => if g.artifacts.isEmpty then none else some g)
          bundle :=
    List.filterMap_congr fun g hg =>
      collectGroup_override_roundtrip cfg he d root bundle hn hf g hg
  exact (List.filterMap_map _ _ _).trans
    (step.trans (filterMap_ite_eq_filter (fun g => g.artifacts.isEmpty) bundle))

/-- Witness for the amended C2 at a concrete bundle and override directory. -/
theorem roundtrip_override_collect_witness :
    TritonBundler.is_enabled cfgOn = true ∧
    (bundleOne.map (fun g => g.kernel_hash)).Nodup ∧
    (∀ g ∈ bundleOne, (g.artifacts.map (fun a => a.filename)).Nodup) ∧
    TritonBundler.collect cfgOn
        (some (bundleOne.map fun g => ⟨g.kernel_hash, g.device, ["o"]⟩))
        (fsOfEffects
          (TritonBundler.write_bundle_to_file_system cfgOn (some ["o"]) ["root"]
            bundleOne))
      = (none, bundleOne.filter fun g => !g.artifacts.isEmpty) :=
  ⟨by decide, by decide, by decide,
   roundtrip_override_collect cfgOn (by decide) ["o"] ["root"] bundleOne
     (by decide) (by decide)⟩

/-- C2 counterexample: the round trip fails as stated when no override
directory is configured. Writing `bundleOne` under the default root writes the
file to `root/triton/h/0/f`, but a fresh entry pointed at that resulting
directory (whether the directory field holds the resulting directory itself,
or its parent so that `directory/kernel_hash` is the written `root/triton/h`
prefix) collects nothing, because `collect` appends the kernel hash where the
write path ends in the device segment. Moreover, even with an override
directory configured, a bundle carrying two payloads under one filename
(`bundleDup`) is not reproduced byte-identically: only the last payload
survives on disk. -/
theorem roundtrip_fails_as_stated :
    TritonBundler.collect cfgOn (some [⟨"h", 0, ["root", "triton", "h", "0"]⟩])
        (fsOfEffects
          (TritonBundler.write_bundle_to_file_system cfgOn none ["root"] bundleOne))
      = (none, []) ∧
    TritonBundler.collect cfgOn (some [⟨"h", 0, ["root", "triton"]⟩])
        (fsOfEffects
          (TritonBundler.write_bundle_to_file_system cfgOn none ["root"] bundleOne))
      = (none, []) ∧
    bundleOne ≠ [] ∧
    TritonBundler.collect cfgOn (some [⟨"h", 0, ["o"]⟩])
        (fsOfEffects
          (TritonBundler.write_bundle_to_file_system cfgOn (some ["o"]) ["root"]
            bundleDup))
      = (none, [⟨"h", 0, [⟨"f", [1]⟩]⟩]) ∧
    ([⟨"h", 0, [⟨"f", [1]⟩]⟩] : List TritonKernelArtifacts) ≠ bundleDup := by
  refine ⟨by decide, by decide, by decide, by decide, by decide⟩
